import Mathlib

/-!
Shallow embedding of `src/server.go` of go-grpc-prometheus: the
registration coordinator `RegisterDefaultServerMetricsWithRegisterer`,
the package-level `Register` entry point, and the data they act on.

The external Prometheus registry is modelled as a capability (spec §6):
a list of currently registered collectors plus an environment-chosen
oracle `registerFails` deciding which `Register` calls fail.  Each call
of the coordinator is modelled as a pure function from the pre-state to
a result carrying the two return values, the post-state, and the trace
of lock / unlock / Register / Unregister events the call performs, in
order.
-/

namespace GrpcPrometheus

/-- A `prom.Collector` value: a counter carries only its identity, a
histogram additionally carries its configured bucket boundaries. -/
inductive Collector where
  | counter : Nat → Collector
  | histogram : Nat → List ℚ → Collector
deriving DecidableEq, Repr

/-- The observable actions of one coordinator call: the mutex lock and
unlock, and the `reg.Register` / `reg.Unregister` calls. -/
inductive Event where
  | lock : Event
  | unlock : Event
  | registerCall : Collector → Event
  | unregisterCall : Collector → Event
deriving DecidableEq, Repr

/-- The external registry: its current collectors and the environment's
choice of which `Register` calls fail (e.g. by name collision). -/
structure Registry where
  collectors : List Collector
  registerFails : Collector → Bool

/-- `reg.Register(c)`: returns whether an error occurred; on success the
collector is added, on failure the registry is unchanged. -/
def Registry.Register (r : Registry) (c : Collector) : Bool × Registry :=
  if r.registerFails c then (true, r)
  else (false, { r with collectors := r.collectors ++ [c] })

/-- `reg.Unregister(c)`: removes the collector from the registry. -/
def Registry.Unregister (r : Registry) (c : Collector) : Registry :=
  { r with collectors := r.collectors.filter (fun x => decide (x ≠ c)) }

/-- The fields of `ServerMetrics` that `server.go` reads: the four
counters, the histogram-enabled flag and the (possibly nil) histogram. -/
structure ServerMetrics where
  serverStartedCounter : Collector
  serverHandledCounter : Collector
  serverStreamMsgReceived : Collector
  serverStreamMsgSent : Collector
  serverHandledHistogramEnabled : Bool
  serverHandledHistogram : Option Collector

/-- The identity of a `prom.Registerer`, the key of the
`defaultServerMetricsPromRegistration` map. -/
abbrev RegId := Nat

/-- The state a coordinator call reads and writes: the registration
record (keys of `defaultServerMetricsPromRegistration`) and the registry
passed to the call. -/
structure World where
  registration : List RegId
  reg : Registry

/-- What one call of the coordinator produces: its two return values,
the post-state and the event trace. -/
structure CallResult where
  alreadyRegistered : Bool
  err : Bool
  world : World
  trace : List Event

/-- One step of `registerSeq`. -/
structure SeqResult where
  reg : Registry
  registeredMetrics : List Collector
  err : Bool
  trace : List Event

/-- The chain of `if err = reg.Register(c); err != nil { return }` blocks
of `server.go` lines 74–99, over the list of instruments it attempts in
order: stops at the first failure, accumulating `registeredMetrics`. -/
def registerSeq (r : Registry) : List Collector → SeqResult
  | [] => ⟨r, [], false, []⟩
  | c :: rest =>
    let step := r.Register c
    if step.1 then ⟨step.2, [], true, [Event.registerCall c]⟩
    else
      let s := registerSeq step.2 rest
      ⟨s.reg, c :: s.registeredMetrics, s.err, Event.registerCall c :: s.trace⟩

/-- The instruments `server.go` attempts, in its fixed order: the four
counters, then the histogram when
`serverHandledHistogramEnabled && serverHandledHistogram != nil`. -/
def ServerMetrics.instrumentSeq (m : ServerMetrics) : List Collector :=
  [m.serverStartedCounter, m.serverHandledCounter,
   m.serverStreamMsgReceived, m.serverStreamMsgSent] ++
  (if m.serverHandledHistogramEnabled then
    match m.serverHandledHistogram with
    | some h => [h]
    | none => []
  else [])

/-- `RegisterDefaultServerMetricsWithRegisterer` (`server.go` lines
46–110): lock; early return when the registerer is recorded; otherwise
run the register chain; the deferred function unregisters
`registeredMetrics` and unlocks on error, or records the registerer and
unlocks on success. -/
def RegisterDefaultServerMetricsWithRegisterer (m : ServerMetrics)
    (regId : RegId) (w : World) : CallResult :=
  if regId ∈ w.registration then
    ⟨true, false, w, [Event.lock, Event.unlock]⟩
  else
    let s := registerSeq w.reg m.instrumentSeq
    if s.err then
      ⟨false, true,
        { w with reg := s.registeredMetrics.foldl Registry.Unregister s.reg },
        Event.lock ::
          (s.trace ++ s.registeredMetrics.map Event.unregisterCall ++ [Event.unlock])⟩
    else
      ⟨false, false,
        { registration := w.registration ++ [regId], reg := s.reg },
        Event.lock :: (s.trace ++ [Event.unlock])⟩

/-- The collectors a trace attempts to `Register`, in order. -/
def attempts (tr : List Event) : List Collector :=
  tr.filterMap (fun e => match e with
    | Event.registerCall c => some c
    | _ => none)

/-- The collectors a trace passes to `Unregister`, in order. -/
def unregs (tr : List Event) : List Collector :=
  tr.filterMap (fun e => match e with
    | Event.unregisterCall c => some c
    | _ => none)

/-- The attempted instruments when registering `cs` one at a time under
failure oracle `fails`: every instrument up to and including the first
failing one. -/
def attemptsUpToFail (fails : Collector → Bool) : List Collector → List Collector
  | [] => []
  | c :: rest => if fails c then [c] else c :: attemptsUpToFail fails rest

/-! ### The `Register` entry point and metric initialization

`Register(server)` calls `DefaultServerMetrics.InitializeMetrics(server)`
(`server.go` lines 35–37).  The body of `InitializeMetrics` lives in a
repository file that is not under `src/`, so it is modelled from the
spec below. -/

/-- The call-type label values (spec §3, a fixed closed set). -/
inductive CallType where
  | unary : CallType
  | clientStream : CallType
  | serverStream : CallType
  | bidiStream : CallType
deriving DecidableEq, Repr

/-- One method of a service, as the server's registered service table
describes it: its name and its streaming classification. -/
structure MethodInfo where
  name : String
  isClientStream : Bool
  isServerStream : Bool
deriving DecidableEq, Repr

/-- One entry of the server's registered service table. -/
structure ServiceInfo where
  service : String
  methods : List MethodInfo
deriving DecidableEq, Repr

/-- The call type discoverable from a method's streaming flags. -/
def MethodInfo.callType (mi : MethodInfo) : CallType :=
  if mi.isClientStream then
    if mi.isServerStream then CallType.bidiStream else CallType.clientStream
  else if mi.isServerStream then CallType.serverStream
  else CallType.unary

/-- The label tuple of an instrument series (spec §3, `CallLabels`). -/
structure CallLabels where
  callType : CallType
  service : String
  method : String
deriving DecidableEq, Repr

/-- A label-keyed counter family: the series that exist, each with its
current value, in creation order. -/
structure CounterVec where
  series : List (CallLabels × Nat)
deriving DecidableEq, Repr

/-- Whether a series for `l` already exists. -/
def seriesExists : List (CallLabels × Nat) → CallLabels → Bool
  | [], _ => false
  | p :: rest, l => if p.1 = l then true else seriesExists rest l

/-- The value of the series for `l`, when it exists. -/
def seriesValue : List (CallLabels × Nat) → CallLabels → Option Nat
  | [], _ => none
  | p :: rest, l => if p.1 = l then some p.2 else seriesValue rest l

/-- The value of the counter for `l`, when its series exists. -/
def CounterVec.value (cv : CounterVec) (l : CallLabels) : Option Nat :=
  seriesValue cv.series l

/-- Touching a counter with a zero increment: the series for `l` comes
to exist, at value 0 when it did not exist before; an existing series
keeps its value. -/
def CounterVec.touchZero (cv : CounterVec) (l : CallLabels) : CounterVec :=
  if seriesExists cv.series l then cv
  else { series := cv.series ++ [(l, 0)] }

/-- The started and handled counter families of the default metric set,
as `Register` initializes them. -/
structure MetricsState where
  started : CounterVec
  handled : CounterVec
deriving DecidableEq, Repr

/-- Touch the started and the handled counter for one label tuple. -/
def touchBoth (st : MetricsState) (l : CallLabels) : MetricsState :=
  { started := st.started.touchZero l, handled := st.handled.touchZero l }

/-- Modelled from the spec: the body of
`ServerMetrics.InitializeMetrics` is not under `src/`; spec §4.1 says it
touches the started and handled counters with a zero increment for every
(service, method, call_type) triple discoverable from the server's
registered service table. -/
def InitializeMetrics (server : List ServiceInfo) (st : MetricsState) : MetricsState :=
  server.foldl (fun acc svc =>
    svc.methods.foldl (fun acc2 mi =>
      touchBoth acc2 ⟨mi.callType, svc.service, mi.name⟩) acc) st

/-- `Register` (`server.go` lines 35–37): pre-initializes all counters
of the default metric set to 0 by calling `InitializeMetrics` on it. -/
def Register (server : List ServiceInfo) (st : MetricsState) : MetricsState :=
  InitializeMetrics server st

/-! ### Mutex-legal interleavings of two coordinator calls

For the concurrency claim: a schedule interleaves the event traces of
two invocations under mutex semantics, where a thread may only emit an
event while the lock is free or held by that thread, a `lock` event
acquires and an `unlock` event releases. -/

/-- Which invocation emitted a scheduled event. -/
inductive Tag where
  | left : Tag
  | right : Tag
deriving DecidableEq, Repr

/-- The lock owner after one event by thread `t`. -/
def nextOwner (own : Option Tag) (t : Tag) (e : Event) : Option Tag :=
  match e with
  | Event.lock => some t
  | Event.unlock => none
  | _ => own

/-- `Sched own t1 t2 s`: `s` is a mutex-legal interleaving of the
remaining traces `t1` and `t2`, starting with lock owner `own`.  A
thread steps only when the lock is free or its own. -/
inductive Sched : Option Tag → List Event → List Event → List (Tag × Event) → Prop where
  | done : Sched none [] [] []
  | stepL : ∀ (own : Option Tag) (e : Event) (es fs : List Event)
      (s : List (Tag × Event)),
      (own = none ∨ own = some Tag.left) →
      Sched (nextOwner own Tag.left e) es fs s →
      Sched own (e :: es) fs ((Tag.left, e) :: s)
  | stepR : ∀ (own : Option Tag) (e : Event) (es fs : List Event)
      (s : List (Tag × Event)),
      (own = none ∨ own = some Tag.right) →
      Sched (nextOwner own Tag.right e) fs es s →
      Sched own fs (e :: es) ((Tag.right, e) :: s)

/-! ### Concrete instances used to exhibit the theorems on closed inputs -/

/-- A concrete started counter. -/
def cStarted : Collector := Collector.counter 0

/-- A concrete handled counter. -/
def cHandled : Collector := Collector.counter 1

/-- A concrete stream-messages-received counter. -/
def cMsgReceived : Collector := Collector.counter 2

/-- A concrete stream-messages-sent counter. -/
def cMsgSent : Collector := Collector.counter 3

/-- A concrete handling-time histogram with bucket boundaries 1, 5, 10. -/
def cHist : Collector := Collector.histogram 4 [1, 5, 10]

/-- A metric set with the histogram enabled and present. -/
def mWithHist : ServerMetrics :=
  ⟨cStarted, cHandled, cMsgReceived, cMsgSent, true, some cHist⟩

/-- A metric set with the histogram disabled. -/
def mNoHist : ServerMetrics :=
  ⟨cStarted, cHandled, cMsgReceived, cMsgSent, false, some cHist⟩

/-- A metric set whose histogram flag is on but whose histogram is nil. -/
def mNilHist : ServerMetrics :=
  ⟨cStarted, cHandled, cMsgReceived, cMsgSent, true, none⟩

/-- An empty registry accepting every registration. -/
def regOk : Registry := ⟨[], fun _ => false⟩

/-- An empty registry on which the third instrument's registration fails. -/
def regFailThird : Registry := ⟨[], fun c => decide (c = cMsgReceived)⟩

/-- An empty record over an accepting registry. -/
def wEmpty : World := ⟨[], regOk⟩

/-- A record that already holds registerer 5, over an accepting registry. -/
def wRecorded : World := ⟨[5], regOk⟩

/-- An empty record over the registry failing on the third instrument. -/
def wFailThird : World := ⟨[], regFailThird⟩

/-- The serial schedule of two already-registered calls. -/
def schedSerialW : List (Tag × Event) :=
  [(Tag.left, Event.lock), (Tag.left, Event.unlock),
   (Tag.right, Event.lock), (Tag.right, Event.unlock)]

/-- The spec's initialization scenario: one service with a unary method
`UnaryA` and a server-streaming method `StreamB`. -/
def serverW : List ServiceInfo :=
  [⟨"svc", [⟨"UnaryA", false, false⟩, ⟨"StreamB", false, true⟩]⟩]

/-- The metric state before any observation: no series exist. -/
def stEmpty : MetricsState := ⟨⟨[]⟩, ⟨[]⟩⟩

/-! ### Predicates and helpers for the initialization proofs -/

/-- Every existing series of the counter family has value 0. -/
def AllZeroCV (cv : CounterVec) : Prop := ∀ p ∈ cv.series, p.2 = 0

/-- Every existing series of both counter families has value 0. -/
def AllZeroMS (st : MetricsState) : Prop :=
  AllZeroCV st.started ∧ AllZeroCV st.handled

/-- The label tuples discoverable from the server's service table. -/
def labelsOf : List ServiceInfo → List CallLabels
  | [] => []
  | svc :: rest =>
    svc.methods.map (fun mi => ⟨mi.callType, svc.service, mi.name⟩) ++ labelsOf rest

/-! ### Basic facts about the registry and the register chain -/

theorem Registry.Register_fails (r : Registry) (c : Collector) :
    (r.Register c).2.registerFails = r.registerFails := by
  unfold Registry.Register
  split <;> rfl

theorem Registry.Register_true (r : Registry) (c : Collector)
    (h : r.registerFails c = true) : r.Register c = (true, r) := by
  simp [Registry.Register, h]

theorem Registry.Register_false (r : Registry) (c : Collector)
    (h : r.registerFails c = false) :
    r.Register c = (false, { r with collectors := r.collectors ++ [c] }) := by
  simp [Registry.Register, h]

theorem registerSeq_fails (r : Registry) (cs : List Collector) :
    (registerSeq r cs).reg.registerFails = r.registerFails := by
  induction cs generalizing r with
  | nil => rfl
  | cons c rest ih =>
    by_cases h : r.registerFails c = true
    · simp [registerSeq, Registry.Register_true r c h]
    · simp only [Bool.not_eq_true] at h
      simp [registerSeq, Registry.Register_false r c h, ih]

theorem registerSeq_regd (r : Registry) (cs : List Collector) :
    (registerSeq r cs).registeredMetrics =
      cs.takeWhile (fun c => !r.registerFails c) := by
  induction cs generalizing r with
  | nil => rfl
  | cons c rest ih =>
    by_cases h : r.registerFails c = true
    · simp [registerSeq, Registry.Register_true r c h, List.takeWhile_cons, h]
    · simp only [Bool.not_eq_true] at h
      simp [registerSeq, Registry.Register_false r c h, List.takeWhile_cons, h, ih]

theorem registerSeq_err (r : Registry) (cs : List Collector) :
    (registerSeq r cs).err = cs.any r.registerFails := by
  induction cs generalizing r with
  | nil => rfl
  | cons c rest ih =>
    by_cases h : r.registerFails c = true
    · simp [registerSeq, Registry.Register_true r c h, h]
    · simp only [Bool.not_eq_true] at h
      simp [registerSeq, Registry.Register_false r c h, h, ih]

theorem registerSeq_collectors (r : Registry) (cs : List Collector) :
    (registerSeq r cs).reg.collectors =
      r.collectors ++ (registerSeq r cs).registeredMetrics := by
  induction cs generalizing r with
  | nil => simp [registerSeq]
  | cons c rest ih =>
    by_cases h : r.registerFails c = true
    · simp [registerSeq, Registry.Register_true r c h]
    · simp only [Bool.not_eq_true] at h
      simp [registerSeq, Registry.Register_false r c h, ih]

theorem registerSeq_attempts (r : Registry) (cs : List Collector) :
    attempts (registerSeq r cs).trace = attemptsUpToFail r.registerFails cs := by
  induction cs generalizing r with
  | nil => rfl
  | cons c rest ih =>
    by_cases h : r.registerFails c = true
    · simp [registerSeq, Registry.Register_true r c h, attempts, attemptsUpToFail, h]
    · simp only [Bool.not_eq_true] at h
      simp [registerSeq, Registry.Register_false r c h, attempts, attemptsUpToFail, h]
      exact ih _

theorem registerSeq_trace_regcalls (r : Registry) (cs : List Collector) :
    ∀ e ∈ (registerSeq r cs).trace, ∃ c, e = Event.registerCall c := by
  induction cs generalizing r with
  | nil => simp [registerSeq]
  | cons c rest ih =>
    by_cases h : r.registerFails c = true
    · simp [registerSeq, Registry.Register_true r c h]
    · simp only [Bool.not_eq_true] at h
      intro e he
      simp [registerSeq, Registry.Register_false r c h] at he
      rcases he with he | he
      · exact ⟨c, he⟩
      · exact ih _ e he

theorem attemptsUpToFail_eq_take (fails : Collector → Bool) (cs : List Collector) :
    ∃ n, n ≤ cs.length ∧ attemptsUpToFail fails cs = cs.take n := by
  induction cs with
  | nil => exact ⟨0, by simp, rfl⟩
  | cons c rest ih =>
    by_cases h : fails c = true
    · exact ⟨1, by simp, by simp [attemptsUpToFail, h]⟩
    · simp only [Bool.not_eq_true] at h
      obtain ⟨n, hn, he⟩ := ih
      exact ⟨n + 1, by simpa using hn, by simp [attemptsUpToFail, h, he]⟩

theorem attemptsUpToFail_of_no_fail (fails : Collector → Bool) (cs : List Collector)
    (h : cs.any fails = false) : attemptsUpToFail fails cs = cs := by
  induction cs with
  | nil => rfl
  | cons c rest ih =>
    simp only [List.any_cons, Bool.or_eq_false_iff] at h
    simp [attemptsUpToFail, h.1, ih h.2]

theorem attemptsUpToFail_dropLast (fails : Collector → Bool) (cs : List Collector) :
    ∀ c ∈ (attemptsUpToFail fails cs).dropLast, fails c = false := by
  induction cs with
  | nil => simp [attemptsUpToFail]
  | cons c rest ih =>
    by_cases h : fails c = true
    · simp [attemptsUpToFail, h]
    · simp only [Bool.not_eq_true] at h
      simp only [attemptsUpToFail, h, Bool.false_eq_true, if_false]
      cases hr : attemptsUpToFail fails rest with
      | nil => simp
      | cons x xs =>
        intro d hd
        simp only [List.dropLast_cons₂, List.mem_cons] at hd
        rcases hd with hd | hd
        · exact hd ▸ h
        · exact ih d (by rw [hr]; exact hd)

theorem foldl_Unregister_collectors (ds : List Collector) (r : Registry) :
    (ds.foldl Registry.Unregister r).collectors =
      r.collectors.filter (fun x => decide (x ∉ ds)) := by
  induction ds generalizing r with
  | nil => simp
  | cons d rest ih =>
    simp only [List.foldl_cons, ih, Registry.Unregister, List.filter_filter]
    have hp : ∀ x : Collector,
        (decide (x ∉ rest) && decide (x ≠ d)) = decide (x ∉ d :: rest) := by
      intro x
      by_cases h1 : x = d <;> by_cases h2 : x ∈ rest <;> simp [h1, h2]
    simp only [hp]

theorem foldl_Unregister_fails (ds : List Collector) (r : Registry) :
    (ds.foldl Registry.Unregister r).registerFails = r.registerFails := by
  induction ds generalizing r with
  | nil => rfl
  | cons d rest ih => simp only [List.foldl_cons, ih, Registry.Unregister]

theorem rollback_restores (ds base : List Collector) (r : Registry)
    (hc : r.collectors = base ++ ds) (hf : ∀ c ∈ ds, c ∉ base) :
    (ds.foldl Registry.Unregister r).collectors = base := by
  rw [foldl_Unregister_collectors, hc, List.filter_append]
  have h1 : base.filter (fun x => decide (x ∉ ds)) = base :=
    List.filter_eq_self.2 (fun a ha => by
      simp only [decide_eq_true_eq]
      intro hmem
      exact hf a hmem ha)
  have h2 : ds.filter (fun x => decide (x ∉ ds)) = [] :=
    List.filter_eq_nil_iff.2 (fun a ha => by simp [ha])
  rw [h1, h2, List.append_nil]

/-! ### Unfolding the three paths of the coordinator call -/

theorem call_mem {m : ServerMetrics} {regId : RegId} {w : World}
    (h : regId ∈ w.registration) :
    RegisterDefaultServerMetricsWithRegisterer m regId w =
      ⟨true, false, w, [Event.lock, Event.unlock]⟩ := by
  simp [RegisterDefaultServerMetricsWithRegisterer, h]

theorem call_err {m : ServerMetrics} {regId : RegId} {w : World}
    (h : regId ∉ w.registration)
    (he : (registerSeq w.reg m.instrumentSeq).err = true) :
    RegisterDefaultServerMetricsWithRegisterer m regId w =
      ⟨false, true,
        { w with reg :=
            ((registerSeq w.reg m.instrumentSeq).registeredMetrics.foldl
              Registry.Unregister (registerSeq w.reg m.instrumentSeq).reg) },
        Event.lock :: ((registerSeq w.reg m.instrumentSeq).trace ++
          (registerSeq w.reg m.instrumentSeq).registeredMetrics.map Event.unregisterCall ++
          [Event.unlock])⟩ := by
  simp [RegisterDefaultServerMetricsWithRegisterer, h, he]

theorem call_ok {m : ServerMetrics} {regId : RegId} {w : World}
    (h : regId ∉ w.registration)
    (he : (registerSeq w.reg m.instrumentSeq).err = false) :
    RegisterDefaultServerMetricsWithRegisterer m regId w =
      ⟨false, false,
        { registration := w.registration ++ [regId],
          reg := (registerSeq w.reg m.instrumentSeq).reg },
        Event.lock :: ((registerSeq w.reg m.instrumentSeq).trace ++ [Event.unlock])⟩ := by
  simp [RegisterDefaultServerMetricsWithRegisterer, h, he]

/-- Every trace of the coordinator is one lock, then only `Register` and
`Unregister` calls, then one unlock. -/
theorem call_trace_shape (m : ServerMetrics) (regId : RegId) (w : World) :
    ∃ body, (RegisterDefaultServerMetricsWithRegisterer m regId w).trace =
        Event.lock :: body ++ [Event.unlock] ∧
      ∀ e ∈ body, (∃ c, e = Event.registerCall c) ∨ ∃ c, e = Event.unregisterCall c := by
  by_cases h : regId ∈ w.registration
  · exact ⟨[], by simp [call_mem h], by simp⟩
  · by_cases he : (registerSeq w.reg m.instrumentSeq).err = true
    · refine ⟨(registerSeq w.reg m.instrumentSeq).trace ++
        (registerSeq w.reg m.instrumentSeq).registeredMetrics.map Event.unregisterCall,
        by simp [call_err h he], ?_⟩
      intro e hmem
      rcases List.mem_append.1 hmem with hmem | hmem
      · exact Or.inl ((registerSeq_trace_regcalls w.reg m.instrumentSeq) e hmem)
      · obtain ⟨c, _, hc⟩ := List.mem_map.1 hmem
        exact Or.inr ⟨c, hc.symm⟩
    · simp only [Bool.not_eq_true] at he
      refine ⟨(registerSeq w.reg m.instrumentSeq).trace, by simp [call_ok h he], ?_⟩
      intro e hmem
      exact Or.inl ((registerSeq_trace_regcalls w.reg m.instrumentSeq) e hmem)

/-! ### Attempt and unregister projections of traces -/

theorem attempts_append (t1 t2 : List Event) :
    attempts (t1 ++ t2) = attempts t1 ++ attempts t2 := by
  simp [attempts, List.filterMap_append]

theorem unregs_append (t1 t2 : List Event) :
    unregs (t1 ++ t2) = unregs t1 ++ unregs t2 := by
  simp [unregs, List.filterMap_append]

theorem attempts_map_unregister (cs : List Collector) :
    attempts (cs.map Event.unregisterCall) = [] := by
  induction cs with
  | nil => rfl
  | cons c rest ih => simp [attempts, List.filterMap_cons] at ih ⊢

theorem unregs_map_unregister (cs : List Collector) :
    unregs (cs.map Event.unregisterCall) = cs := by
  induction cs with
  | nil => rfl
  | cons c rest ih => simpa [unregs, List.filterMap_cons] using ih

theorem unregs_of_regcalls (tr : List Event)
    (h : ∀ e ∈ tr, ∃ c, e = Event.registerCall c) : unregs tr = [] := by
  induction tr with
  | nil => rfl
  | cons e rest ih =>
    obtain ⟨c, hc⟩ := h e (List.mem_cons_self e rest)
    subst hc
    simp only [unregs, List.filterMap_cons]
    exact ih (fun e he => h e (List.mem_cons_of_mem _ he))

theorem attempts_cons_lock (l : List Event) :
    attempts (Event.lock :: l) = attempts l := rfl

theorem attempts_single_unlock : attempts [Event.unlock] = [] := rfl

theorem unregs_cons_lock (l : List Event) :
    unregs (Event.lock :: l) = unregs l := rfl

theorem unregs_single_unlock : unregs [Event.unlock] = [] := rfl

theorem attempts_call {m : ServerMetrics} {regId : RegId} {w : World}
    (h : regId ∉ w.registration) :
    attempts (RegisterDefaultServerMetricsWithRegisterer m regId w).trace =
      attemptsUpToFail w.reg.registerFails m.instrumentSeq := by
  by_cases he : (registerSeq w.reg m.instrumentSeq).err = true
  · rw [call_err h he, attempts_cons_lock]
    rw [attempts_append, attempts_append, attempts_map_unregister,
      attempts_single_unlock, registerSeq_attempts]
    simp
  · simp only [Bool.not_eq_true] at he
    rw [call_ok h he, attempts_cons_lock, attempts_append,
      attempts_single_unlock, registerSeq_attempts]
    simp

/-! ### The claim theorems -/

/-- C2: `RegisterDefaultServerMetricsWithRegisterer` is idempotent per
registry: when the registerer is already recorded, the call returns
`alreadyRegistered = true` with no error, makes no `Register` or
`Unregister` call (its trace is just lock–unlock) and leaves the record
and the registry unchanged; in particular a second call after a
successful first call on the same registerer behaves this way. -/
theorem registerInto_idempotent (m : ServerMetrics) (regId : RegId) (w : World)
    (h : regId ∈ w.registration) :
    RegisterDefaultServerMetricsWithRegisterer m regId w =
      ⟨true, false, w, [Event.lock, Event.unlock]⟩ ∧
    ∀ (m₂ : ServerMetrics) (w₀ : World),
      (RegisterDefaultServerMetricsWithRegisterer m₂ regId w₀).alreadyRegistered = false →
      (RegisterDefaultServerMetricsWithRegisterer m₂ regId w₀).err = false →
      RegisterDefaultServerMetricsWithRegisterer m regId
          (RegisterDefaultServerMetricsWithRegisterer m₂ regId w₀).world =
        ⟨true, false, (RegisterDefaultServerMetricsWithRegisterer m₂ regId w₀).world,
          [Event.lock, Event.unlock]⟩ := by
  refine ⟨call_mem h, ?_⟩
  intro m₂ w₀ ha he
  by_cases hmem : regId ∈ w₀.registration
  · rw [call_mem hmem] at ha
    cases ha
  · by_cases herr : (registerSeq w₀.reg m₂.instrumentSeq).err = true
    · rw [call_err hmem herr] at he
      cases he
    · simp only [Bool.not_eq_true] at herr
      have hcell := call_ok (m := m₂) hmem herr
      rw [hcell]
      exact call_mem (by simp)

/-- C2 witness: a second call on a recorded registerer is a lock–unlock
no-op at a concrete metric set and world. -/
theorem registerInto_idempotent_witness :
    (5 : RegId) ∈ wRecorded.registration ∧
    (RegisterDefaultServerMetricsWithRegisterer mNoHist 5 wRecorded =
      ⟨true, false, wRecorded, [Event.lock, Event.unlock]⟩ ∧
    ∀ (m₂ : ServerMetrics) (w₀ : World),
      (RegisterDefaultServerMetricsWithRegisterer m₂ 5 w₀).alreadyRegistered = false →
      (RegisterDefaultServerMetricsWithRegisterer m₂ 5 w₀).err = false →
      RegisterDefaultServerMetricsWithRegisterer mNoHist 5
          (RegisterDefaultServerMetricsWithRegisterer m₂ 5 w₀).world =
        ⟨true, false, (RegisterDefaultServerMetricsWithRegisterer m₂ 5 w₀).world,
          [Event.lock, Event.unlock]⟩) :=
  ⟨by decide, registerInto_idempotent mNoHist 5 wRecorded (by decide)⟩

/-- C10: the two results are mutually exclusive: a call returning
`alreadyRegistered = true` returns no error and performs no `Register`
or `Unregister` call; a call returning an error returns
`alreadyRegistered = false`. -/
theorem registerInto_results_exclusive (m : ServerMetrics) (regId : RegId) (w : World) :
    ((RegisterDefaultServerMetricsWithRegisterer m regId w).alreadyRegistered = true →
      (RegisterDefaultServerMetricsWithRegisterer m regId w).err = false ∧
      attempts (RegisterDefaultServerMetricsWithRegisterer m regId w).trace = [] ∧
      unregs (RegisterDefaultServerMetricsWithRegisterer m regId w).trace = []) ∧
    ((RegisterDefaultServerMetricsWithRegisterer m regId w).err = true →
      (RegisterDefaultServerMetricsWithRegisterer m regId w).alreadyRegistered = false) := by
  by_cases h : regId ∈ w.registration
  · rw [call_mem h]
    exact ⟨fun _ => ⟨rfl, rfl, rfl⟩, fun hc => Bool.noConfusion hc⟩
  · by_cases he : (registerSeq w.reg m.instrumentSeq).err = true
    · rw [call_err h he]
      exact ⟨fun hc => Bool.noConfusion hc, fun _ => rfl⟩
    · simp only [Bool.not_eq_true] at he
      rw [call_ok h he]
      exact ⟨fun hc => Bool.noConfusion hc, fun hc => Bool.noConfusion hc⟩

/-- C5: the registration record is append-only: a call either leaves it
unchanged or appends the one registerer; every previous entry survives;
a failed attempt leaves it exactly as before; and the entry is appended
precisely when the call neither found the pair recorded nor erred. -/
theorem registration_record_append_only (m : ServerMetrics) (regId : RegId) (w : World) :
    ((RegisterDefaultServerMetricsWithRegisterer m regId w).world.registration =
        w.registration ∨
     (RegisterDefaultServerMetricsWithRegisterer m regId w).world.registration =
        w.registration ++ [regId]) ∧
    (∀ x ∈ w.registration,
      x ∈ (RegisterDefaultServerMetricsWithRegisterer m regId w).world.registration) ∧
    ((RegisterDefaultServerMetricsWithRegisterer m regId w).err = true →
      (RegisterDefaultServerMetricsWithRegisterer m regId w).world.registration =
        w.registration) ∧
    ((RegisterDefaultServerMetricsWithRegisterer m regId w).world.registration =
        w.registration ++ [regId] ↔
      ((RegisterDefaultServerMetricsWithRegisterer m regId w).alreadyRegistered = false ∧
       (RegisterDefaultServerMetricsWithRegisterer m regId w).err = false)) := by
  have hlen : ∀ (l : List RegId) (a : RegId), l ≠ l ++ [a] := by
    intro l a hEq
    have := congrArg List.length hEq
    simp at this
  by_cases h : regId ∈ w.registration
  · rw [call_mem h]
    refine ⟨Or.inl rfl, fun x hx => hx, fun _ => rfl,
      iff_of_false (hlen _ _) ?_⟩
    intro hc
    exact Bool.noConfusion hc.1
  · by_cases he : (registerSeq w.reg m.instrumentSeq).err = true
    · rw [call_err h he]
      refine ⟨Or.inl rfl, fun x hx => hx, fun _ => rfl,
        iff_of_false (hlen _ _) ?_⟩
      intro hc
      exact Bool.noConfusion hc.2
    · simp only [Bool.not_eq_true] at he
      rw [call_ok h he]
      exact ⟨Or.inr rfl, fun x hx => List.mem_append_left _ hx,
        fun hc => Bool.noConfusion hc, iff_of_true rfl ⟨rfl, rfl⟩⟩

/-- C8: every execution path acquires the registration mutex exactly
once and releases it exactly once, and the release is the last action
before the call returns. -/
theorem registerInto_lock_balanced (m : ServerMetrics) (regId : RegId) (w : World) :
    (RegisterDefaultServerMetricsWithRegisterer m regId w).trace.countP
        (fun e => decide (e = Event.lock)) = 1 ∧
    (RegisterDefaultServerMetricsWithRegisterer m regId w).trace.countP
        (fun e => decide (e = Event.unlock)) = 1 ∧
    (RegisterDefaultServerMetricsWithRegisterer m regId w).trace.getLast? =
      some Event.unlock := by
  obtain ⟨body, hb, hbody⟩ := call_trace_shape m regId w
  rw [hb]
  have hlock : body.countP (fun e => decide (e = Event.lock)) = 0 :=
    List.countP_eq_zero.2 (fun e he => by
      rcases hbody e he with ⟨c, hc⟩ | ⟨c, hc⟩ <;> subst hc <;> simp)
  have hunlock : body.countP (fun e => decide (e = Event.unlock)) = 0 :=
    List.countP_eq_zero.2 (fun e he => by
      rcases hbody e he with ⟨c, hc⟩ | ⟨c, hc⟩ <;> subst hc <;> simp)
  refine ⟨?_, ?_, ?_⟩
  · simp [List.countP_cons, List.countP_append, hlock]
  · simp [List.countP_cons, List.countP_append, hunlock]
  · rw [show Event.lock :: body ++ [Event.unlock] =
      (Event.lock :: body) ++ [Event.unlock] from rfl]
    exact List.getLast?_concat _

/-- C1: all-or-nothing on failure: when a call errs, every instrument
registered earlier in the attempt is passed to `Unregister` before the
return, the registry ends with none of the metric set's instruments (its
collector list is exactly as before), the record is untouched and the
registerer is not recorded, and a retry against a registry that now
accepts every instrument succeeds and records the registerer. -/
theorem registerInto_rollback (m : ServerMetrics) (regId : RegId) (w : World)
    (hfresh : ∀ c ∈ m.instrumentSeq, c ∉ w.reg.collectors)
    (herr : (RegisterDefaultServerMetricsWithRegisterer m regId w).err = true) :
    (RegisterDefaultServerMetricsWithRegisterer m regId w).world.reg.collectors =
        w.reg.collectors ∧
    (∀ c ∈ m.instrumentSeq,
      c ∉ (RegisterDefaultServerMetricsWithRegisterer m regId w).world.reg.collectors) ∧
    (RegisterDefaultServerMetricsWithRegisterer m regId w).world.registration =
        w.registration ∧
    regId ∉ (RegisterDefaultServerMetricsWithRegisterer m regId w).world.registration ∧
    unregs (RegisterDefaultServerMetricsWithRegisterer m regId w).trace =
        (registerSeq w.reg m.instrumentSeq).registeredMetrics ∧
    (RegisterDefaultServerMetricsWithRegisterer m regId
        ⟨(RegisterDefaultServerMetricsWithRegisterer m regId w).world.registration,
         ⟨(RegisterDefaultServerMetricsWithRegisterer m regId w).world.reg.collectors,
          fun _ => false⟩⟩).alreadyRegistered = false ∧
    (RegisterDefaultServerMetricsWithRegisterer m regId
        ⟨(RegisterDefaultServerMetricsWithRegisterer m regId w).world.registration,
         ⟨(RegisterDefaultServerMetricsWithRegisterer m regId w).world.reg.collectors,
          fun _ => false⟩⟩).err = false ∧
    (RegisterDefaultServerMetricsWithRegisterer m regId
        ⟨(RegisterDefaultServerMetricsWithRegisterer m regId w).world.registration,
         ⟨(RegisterDefaultServerMetricsWithRegisterer m regId w).world.reg.collectors,
          fun _ => false⟩⟩).world.registration =
      (RegisterDefaultServerMetricsWithRegisterer m regId w).world.registration ++
        [regId] := by
  have hmem : regId ∉ w.registration := by
    intro hmem
    rw [call_mem hmem] at herr
    exact Bool.noConfusion herr
  have herr' : (registerSeq w.reg m.instrumentSeq).err = true := by
    by_cases he : (registerSeq w.reg m.instrumentSeq).err = true
    · exact he
    · simp only [Bool.not_eq_true] at he
      rw [call_ok hmem he] at herr
      exact Bool.noConfusion herr
  have hcol : (RegisterDefaultServerMetricsWithRegisterer m regId w).world.reg.collectors =
      w.reg.collectors := by
    rw [call_err hmem herr']
    exact rollback_restores _ _ _ (registerSeq_collectors w.reg m.instrumentSeq)
      (fun c hc => hfresh c ((List.takeWhile_sublist _).subset
        (by rw [← registerSeq_regd]; exact hc)))
  have hreg : (RegisterDefaultServerMetricsWithRegisterer m regId w).world.registration =
      w.registration := by
    rw [call_err hmem herr']
  have hmem2 : regId ∉
      (⟨(RegisterDefaultServerMetricsWithRegisterer m regId w).world.registration,
        ⟨(RegisterDefaultServerMetricsWithRegisterer m regId w).world.reg.collectors,
         fun _ => false⟩⟩ : World).registration := by
    show regId ∉ (RegisterDefaultServerMetricsWithRegisterer m regId w).world.registration
    rw [hreg]
    exact hmem
  have hseq2 : (registerSeq
      (⟨(RegisterDefaultServerMetricsWithRegisterer m regId w).world.registration,
        ⟨(RegisterDefaultServerMetricsWithRegisterer m regId w).world.reg.collectors,
         fun _ => false⟩⟩ : World).reg m.instrumentSeq).err = false := by
    rw [registerSeq_err]
    simp
  refine ⟨hcol, fun c hc => by rw [hcol]; exact hfresh c hc, hreg,
    by rw [hreg]; exact hmem, ?_, ?_, ?_, ?_⟩
  · rw [call_err hmem herr', unregs_cons_lock, unregs_append, unregs_append,
      unregs_of_regcalls _ (registerSeq_trace_regcalls w.reg m.instrumentSeq),
      unregs_map_unregister, unregs_single_unlock]
    simp
  · rw [call_ok hmem2 hseq2]
  · rw [call_ok hmem2 hseq2]
  · rw [call_ok hmem2 hseq2]

/-- C1 witness: the registry fails on the third of the five instruments;
the rollback and the successful retry are exhibited concretely. -/
theorem registerInto_rollback_witness :
    (∀ c ∈ mWithHist.instrumentSeq, c ∉ wFailThird.reg.collectors) ∧
    (RegisterDefaultServerMetricsWithRegisterer mWithHist 7 wFailThird).err = true ∧
    ((RegisterDefaultServerMetricsWithRegisterer mWithHist 7 wFailThird).world.reg.collectors =
        wFailThird.reg.collectors ∧
    (∀ c ∈ mWithHist.instrumentSeq,
      c ∉ (RegisterDefaultServerMetricsWithRegisterer mWithHist 7 wFailThird).world.reg.collectors) ∧
    (RegisterDefaultServerMetricsWithRegisterer mWithHist 7 wFailThird).world.registration =
        wFailThird.registration ∧
    (7 : RegId) ∉ (RegisterDefaultServerMetricsWithRegisterer mWithHist 7 wFailThird).world.registration ∧
    unregs (RegisterDefaultServerMetricsWithRegisterer mWithHist 7 wFailThird).trace =
        (registerSeq wFailThird.reg mWithHist.instrumentSeq).registeredMetrics ∧
    (RegisterDefaultServerMetricsWithRegisterer mWithHist 7
        ⟨(RegisterDefaultServerMetricsWithRegisterer mWithHist 7 wFailThird).world.registration,
         ⟨(RegisterDefaultServerMetricsWithRegisterer mWithHist 7 wFailThird).world.reg.collectors,
          fun _ => false⟩⟩).alreadyRegistered = false ∧
    (RegisterDefaultServerMetricsWithRegisterer mWithHist 7
        ⟨(RegisterDefaultServerMetricsWithRegisterer mWithHist 7 wFailThird).world.registration,
         ⟨(RegisterDefaultServerMetricsWithRegisterer mWithHist 7 wFailThird).world.reg.collectors,
          fun _ => false⟩⟩).err = false ∧
    (RegisterDefaultServerMetricsWithRegisterer mWithHist 7
        ⟨(RegisterDefaultServerMetricsWithRegisterer mWithHist 7 wFailThird).world.registration,
         ⟨(RegisterDefaultServerMetricsWithRegisterer mWithHist 7 wFailThird).world.reg.collectors,
          fun _ => false⟩⟩).world.registration =
      (RegisterDefaultServerMetricsWithRegisterer mWithHist 7 wFailThird).world.registration ++
        [7]) :=
  ⟨by decide, by decide,
    registerInto_rollback mWithHist 7 wFailThird (by decide) (by decide)⟩

/-- C3: a non-early-returning call attempts the instruments one at a
time in the fixed order started counter, handled counter,
stream-messages-received counter, stream-messages-sent counter, then
the histogram when enabled: the attempted sequence is a prefix of that
order, every attempt but the last succeeded, and an error-free call
attempts exactly the whole sequence. -/
theorem registerInto_fixed_order (m : ServerMetrics) (regId : RegId) (w : World)
    (hmem : regId ∉ w.registration) :
    m.instrumentSeq =
      [m.serverStartedCounter, m.serverHandledCounter, m.serverStreamMsgReceived,
        m.serverStreamMsgSent] ++
      (if m.serverHandledHistogramEnabled then
        match m.serverHandledHistogram with
        | some h => [h]
        | none => []
      else []) ∧
    (∃ n, n ≤ m.instrumentSeq.length ∧
      attempts (RegisterDefaultServerMetricsWithRegisterer m regId w).trace =
        m.instrumentSeq.take n) ∧
    (∀ c ∈ (attempts (RegisterDefaultServerMetricsWithRegisterer m regId w).trace).dropLast,
      w.reg.registerFails c = false) ∧
    ((RegisterDefaultServerMetricsWithRegisterer m regId w).err = false →
      attempts (RegisterDefaultServerMetricsWithRegisterer m regId w).trace =
        m.instrumentSeq) := by
  refine ⟨rfl, ?_, ?_, ?_⟩
  · rw [attempts_call hmem]
    exact attemptsUpToFail_eq_take _ _
  · rw [attempts_call hmem]
    exact attemptsUpToFail_dropLast _ _
  · intro he
    rw [attempts_call hmem]
    have hseq : (registerSeq w.reg m.instrumentSeq).err = false := by
      by_cases h2 : (registerSeq w.reg m.instrumentSeq).err = true
      · rw [call_err hmem h2] at he
        exact Bool.noConfusion he
      · simpa using h2
    rw [registerSeq_err] at hseq
    exact attemptsUpToFail_of_no_fail _ _ hseq

/-- C3 witness: on a registry failing at the third instrument, the
attempted sequence is the three-element prefix of the fixed order. -/
theorem registerInto_fixed_order_witness :
    (7 : RegId) ∉ wFailThird.registration ∧
    (mWithHist.instrumentSeq =
      [mWithHist.serverStartedCounter, mWithHist.serverHandledCounter,
        mWithHist.serverStreamMsgReceived, mWithHist.serverStreamMsgSent] ++
      (if mWithHist.serverHandledHistogramEnabled then
        match mWithHist.serverHandledHistogram with
        | some h => [h]
        | none => []
      else []) ∧
    (∃ n, n ≤ mWithHist.instrumentSeq.length ∧
      attempts (RegisterDefaultServerMetricsWithRegisterer mWithHist 7 wFailThird).trace =
        mWithHist.instrumentSeq.take n) ∧
    (∀ c ∈ (attempts
        (RegisterDefaultServerMetricsWithRegisterer mWithHist 7 wFailThird).trace).dropLast,
      wFailThird.reg.registerFails c = false) ∧
    ((RegisterDefaultServerMetricsWithRegisterer mWithHist 7 wFailThird).err = false →
      attempts (RegisterDefaultServerMetricsWithRegisterer mWithHist 7 wFailThird).trace =
        mWithHist.instrumentSeq)) :=
  ⟨by decide, registerInto_fixed_order mWithHist 7 wFailThird (by decide)⟩

/-- C4: on a successful registering call, when the histogram is enabled
(and present, carrying its configured bucket boundaries) the registry
gains exactly the four counters and then the histogram as the fifth
instrument; when it is disabled the registry gains exactly the four
counters and the histogram is not registered. -/
theorem registerInto_histogram (m : ServerMetrics) (regId : RegId) (w : World)
    (hmem : regId ∉ w.registration)
    (hok : (RegisterDefaultServerMetricsWithRegisterer m regId w).err = false) :
    (∀ (nm : Nat) (buckets : List ℚ), m.serverHandledHistogramEnabled = true →
      m.serverHandledHistogram = some (Collector.histogram nm buckets) →
      (RegisterDefaultServerMetricsWithRegisterer m regId w).world.reg.collectors =
        w.reg.collectors ++ [m.serverStartedCounter, m.serverHandledCounter,
          m.serverStreamMsgReceived, m.serverStreamMsgSent,
          Collector.histogram nm buckets]) ∧
    (m.serverHandledHistogramEnabled = false →
      (RegisterDefaultServerMetricsWithRegisterer m regId w).world.reg.collectors =
        w.reg.collectors ++ [m.serverStartedCounter, m.serverHandledCounter,
          m.serverStreamMsgReceived, m.serverStreamMsgSent] ∧
      ∀ hc, m.serverHandledHistogram = some hc →
        hc ∉ w.reg.collectors →
        hc ∉ [m.serverStartedCounter, m.serverHandledCounter,
          m.serverStreamMsgReceived, m.serverStreamMsgSent] →
        hc ∉ (RegisterDefaultServerMetricsWithRegisterer m regId w).world.reg.collectors) := by
  have hseq : (registerSeq w.reg m.instrumentSeq).err = false := by
    by_cases h2 : (registerSeq w.reg m.instrumentSeq).err = true
    · rw [call_err hmem h2] at hok
      exact Bool.noConfusion hok
    · simpa using h2
  have hany : m.instrumentSeq.any w.reg.registerFails = false := by
    rw [← registerSeq_err]
    exact hseq
  have hregd : (registerSeq w.reg m.instrumentSeq).registeredMetrics = m.instrumentSeq := by
    rw [registerSeq_regd]
    refine List.takeWhile_eq_self_iff.2 (fun x hx => ?_)
    have := List.any_eq_false.1 hany x hx
    simpa using this
  have hcoll : (RegisterDefaultServerMetricsWithRegisterer m regId w).world.reg.collectors =
      w.reg.collectors ++ m.instrumentSeq := by
    rw [call_ok hmem hseq]
    show (registerSeq w.reg m.instrumentSeq).reg.collectors = _
    rw [registerSeq_collectors, hregd]
  constructor
  · intro nm buckets hen hsome
    rw [hcoll]
    simp [ServerMetrics.instrumentSeq, hen, hsome]
  · intro hen
    constructor
    · rw [hcoll]
      simp [ServerMetrics.instrumentSeq, hen]
    · intro hc _ hnw hn4 hmem2
      rw [hcoll] at hmem2
      rcases List.mem_append.1 hmem2 with hmem2 | hmem2
      · exact hnw hmem2
      · refine hn4 ?_
        simpa [ServerMetrics.instrumentSeq, hen] using hmem2

/-- C4 witness: registering with the histogram enabled puts the five
instruments, the bucketed histogram fifth, into an empty registry. -/
theorem registerInto_histogram_witness :
    (7 : RegId) ∉ wEmpty.registration ∧
    (RegisterDefaultServerMetricsWithRegisterer mWithHist 7 wEmpty).err = false ∧
    ((∀ (nm : Nat) (buckets : List ℚ), mWithHist.serverHandledHistogramEnabled = true →
      mWithHist.serverHandledHistogram = some (Collector.histogram nm buckets) →
      (RegisterDefaultServerMetricsWithRegisterer mWithHist 7 wEmpty).world.reg.collectors =
        wEmpty.reg.collectors ++ [mWithHist.serverStartedCounter,
          mWithHist.serverHandledCounter, mWithHist.serverStreamMsgReceived,
          mWithHist.serverStreamMsgSent, Collector.histogram nm buckets]) ∧
    (mWithHist.serverHandledHistogramEnabled = false →
      (RegisterDefaultServerMetricsWithRegisterer mWithHist 7 wEmpty).world.reg.collectors =
        wEmpty.reg.collectors ++ [mWithHist.serverStartedCounter,
          mWithHist.serverHandledCounter, mWithHist.serverStreamMsgReceived,
          mWithHist.serverStreamMsgSent] ∧
      ∀ hc, mWithHist.serverHandledHistogram = some hc →
        hc ∉ wEmpty.reg.collectors →
        hc ∉ [mWithHist.serverStartedCounter, mWithHist.serverHandledCounter,
          mWithHist.serverStreamMsgReceived, mWithHist.serverStreamMsgSent] →
        hc ∉ (RegisterDefaultServerMetricsWithRegisterer mWithHist 7 wEmpty).world.reg.collectors)) :=
  ⟨by decide, by decide, registerInto_histogram mWithHist 7 wEmpty (by decide) (by decide)⟩

/-- C9: with the histogram flag on but the histogram nil, the call skips
the histogram entirely: its instrument sequence is just the four
counters, and against a registry accepting them the call succeeds,
registering exactly the four counters. -/
theorem registerInto_nil_histogram (m : ServerMetrics) (regId : RegId) (w : World)
    (hen : m.serverHandledHistogramEnabled = true)
    (hnil : m.serverHandledHistogram = none)
    (hmem : regId ∉ w.registration)
    (hacc : ∀ c ∈ [m.serverStartedCounter, m.serverHandledCounter,
        m.serverStreamMsgReceived, m.serverStreamMsgSent], w.reg.registerFails c = false) :
    m.instrumentSeq = [m.serverStartedCounter, m.serverHandledCounter,
        m.serverStreamMsgReceived, m.serverStreamMsgSent] ∧
    (RegisterDefaultServerMetricsWithRegisterer m regId w).err = false ∧
    (RegisterDefaultServerMetricsWithRegisterer m regId w).world.reg.collectors =
      w.reg.collectors ++ [m.serverStartedCounter, m.serverHandledCounter,
        m.serverStreamMsgReceived, m.serverStreamMsgSent] ∧
    attempts (RegisterDefaultServerMetricsWithRegisterer m regId w).trace =
      [m.serverStartedCounter, m.serverHandledCounter,
        m.serverStreamMsgReceived, m.serverStreamMsgSent] := by
  have hinstr : m.instrumentSeq = [m.serverStartedCounter, m.serverHandledCounter,
      m.serverStreamMsgReceived, m.serverStreamMsgSent] := by
    simp [ServerMetrics.instrumentSeq, hen, hnil]
  have hany : m.instrumentSeq.any w.reg.registerFails = false := by
    rw [hinstr]
    refine List.any_eq_false.2 (fun x hx => ?_)
    rw [hacc x hx]
    exact Bool.noConfusion
  have hseq : (registerSeq w.reg m.instrumentSeq).err = false := by
    rw [registerSeq_err]
    exact hany
  have hregd : (registerSeq w.reg m.instrumentSeq).registeredMetrics = m.instrumentSeq := by
    rw [registerSeq_regd]
    refine List.takeWhile_eq_self_iff.2 (fun x hx => ?_)
    have := List.any_eq_false.1 hany x hx
    simpa using this
  refine ⟨hinstr, ?_, ?_, ?_⟩
  · rw [call_ok hmem hseq]
  · rw [call_ok hmem hseq]
    show (registerSeq w.reg m.instrumentSeq).reg.collectors = _
    rw [registerSeq_collectors, hregd, hinstr]
  · rw [attempts_call hmem, attemptsUpToFail_of_no_fail _ _ hany, hinstr]

/-- C9 witness: the enabled-but-nil histogram configuration succeeds
with exactly the four counters on an empty accepting registry. -/
theorem registerInto_nil_histogram_witness :
    mNilHist.serverHandledHistogramEnabled = true ∧
    mNilHist.serverHandledHistogram = none ∧
    (7 : RegId) ∉ wEmpty.registration ∧
    (∀ c ∈ [mNilHist.serverStartedCounter, mNilHist.serverHandledCounter,
        mNilHist.serverStreamMsgReceived, mNilHist.serverStreamMsgSent],
      wEmpty.reg.registerFails c = false) ∧
    (mNilHist.instrumentSeq = [mNilHist.serverStartedCounter, mNilHist.serverHandledCounter,
        mNilHist.serverStreamMsgReceived, mNilHist.serverStreamMsgSent] ∧
    (RegisterDefaultServerMetricsWithRegisterer mNilHist 7 wEmpty).err = false ∧
    (RegisterDefaultServerMetricsWithRegisterer mNilHist 7 wEmpty).world.reg.collectors =
      wEmpty.reg.collectors ++ [mNilHist.serverStartedCounter, mNilHist.serverHandledCounter,
        mNilHist.serverStreamMsgReceived, mNilHist.serverStreamMsgSent] ∧
    attempts (RegisterDefaultServerMetricsWithRegisterer mNilHist 7 wEmpty).trace =
      [mNilHist.serverStartedCounter, mNilHist.serverHandledCounter,
        mNilHist.serverStreamMsgReceived, mNilHist.serverStreamMsgSent]) :=
  ⟨rfl, rfl, by decide, by decide,
    registerInto_nil_histogram mNilHist 7 wEmpty rfl rfl (by decide) (by decide)⟩

/-! ### Serializability of mutex-legal schedules -/

theorem nextOwner_other (own : Option Tag) (t : Tag) (e : Event)
    (h1 : e ≠ Event.lock) (h2 : e ≠ Event.unlock) : nextOwner own t e = own := by
  cases e <;> simp_all [nextOwner]

theorem sched_right_only {own : Option Tag} {t1 t2 : List Event}
    {s : List (Tag × Event)} (h : Sched own t1 t2 s) :
    t1 = [] → s = t2.map (fun e => (Tag.right, e)) := by
  induction h with
  | done => intro _; rfl
  | stepL own e es fs s hall hs ih =>
    intro h1
    simp at h1
  | stepR own e es fs s hall hs ih =>
    intro h1
    rw [ih h1]
    rfl

theorem sched_left_only {own : Option Tag} {t1 t2 : List Event}
    {s : List (Tag × Event)} (h : Sched own t1 t2 s) :
    t2 = [] → s = t1.map (fun e => (Tag.left, e)) := by
  induction h with
  | done => intro _; rfl
  | stepL own e es fs s hall hs ih =>
    intro h1
    rw [ih h1]
    rfl
  | stepR own e es fs s hall hs ih =>
    intro h1
    simp at h1

theorem sched_left_locked (mid : List Event) :
    ∀ (t2 : List Event) (s : List (Tag × Event)),
      (∀ e ∈ mid, e ≠ Event.lock ∧ e ≠ Event.unlock) →
      Sched (some Tag.left) (mid ++ [Event.unlock]) t2 s →
      s = (mid ++ [Event.unlock]).map (fun e => (Tag.left, e)) ++
          t2.map (fun e => (Tag.right, e)) := by
  induction mid with
  | nil =>
    intro t2 s hmid h
    cases h with
    | stepL own e es fs s' hall hs =>
      rw [sched_right_only hs rfl]
      rfl
    | stepR own e es fs s' hall hs =>
      rcases hall with hc | hc <;> simp at hc
  | cons x mid ih =>
    intro t2 s hmid h
    have hx := hmid x (List.mem_cons_self x mid)
    rw [List.cons_append] at h
    cases h with
    | stepL own e es fs s' hall hs =>
      rw [nextOwner_other _ _ _ hx.1 hx.2] at hs
      rw [ih t2 s' (fun e he => hmid e (List.mem_cons_of_mem _ he)) hs]
      rfl
    | stepR own e es fs s' hall hs =>
      rcases hall with hc | hc <;> simp at hc

theorem sched_right_locked (mid : List Event) :
    ∀ (t1 : List Event) (s : List (Tag × Event)),
      (∀ e ∈ mid, e ≠ Event.lock ∧ e ≠ Event.unlock) →
      Sched (some Tag.right) t1 (mid ++ [Event.unlock]) s →
      s = (mid ++ [Event.unlock]).map (fun e => (Tag.right, e)) ++
          t1.map (fun e => (Tag.left, e)) := by
  induction mid with
  | nil =>
    intro t1 s hmid h
    cases h with
    | stepR own e es fs s' hall hs =>
      rw [sched_left_only hs rfl]
      rfl
    | stepL own e es fs s' hall hs =>
      rcases hall with hc | hc <;> simp at hc
  | cons x mid ih =>
    intro t1 s hmid h
    have hx := hmid x (List.mem_cons_self x mid)
    rw [List.cons_append] at h
    cases h with
    | stepR own e es fs s' hall hs =>
      rw [nextOwner_other _ _ _ hx.1 hx.2] at hs
      rw [ih t1 s' (fun e he => hmid e (List.mem_cons_of_mem _ he)) hs]
      rfl
    | stepL own e es fs s' hall hs =>
      rcases hall with hc | hc <;> simp at hc

theorem sched_serial {b1 b2 : List Event} {s : List (Tag × Event)}
    (h1 : ∀ e ∈ b1, e ≠ Event.lock ∧ e ≠ Event.unlock)
    (h2 : ∀ e ∈ b2, e ≠ Event.lock ∧ e ≠ Event.unlock)
    (h : Sched none (Event.lock :: b1 ++ [Event.unlock])
      (Event.lock :: b2 ++ [Event.unlock]) s) :
    s = (Event.lock :: b1 ++ [Event.unlock]).map (fun e => (Tag.left, e)) ++
        (Event.lock :: b2 ++ [Event.unlock]).map (fun e => (Tag.right, e)) ∨
    s = (Event.lock :: b2 ++ [Event.unlock]).map (fun e => (Tag.right, e)) ++
        (Event.lock :: b1 ++ [Event.unlock]).map (fun e => (Tag.left, e)) := by
  cases h with
  | stepL own e es fs s' hall hs =>
    left
    rw [sched_left_locked b1 _ _ h1 hs]
    rfl
  | stepR own e es fs s' hall hs =>
    right
    rw [sched_right_locked b2 _ _ h2 hs]
    rfl

/-- C6: each invocation's whole check-then-act sequence (membership
check, `Register` attempts, rollback, recording) sits inside one
lock–unlock region, and therefore every mutex-legal interleaving of two
invocations is serial: one invocation's events all precede the other's,
so the two cannot interleave into duplicate or partially-overlapping
registration. -/
theorem registerInto_mutual_exclusion (m₁ m₂ : ServerMetrics)
    (regId₁ regId₂ : RegId) (w₁ w₂ : World) (s : List (Tag × Event))
    (hs : Sched none (RegisterDefaultServerMetricsWithRegisterer m₁ regId₁ w₁).trace
      (RegisterDefaultServerMetricsWithRegisterer m₂ regId₂ w₂).trace s) :
    (∃ body, (RegisterDefaultServerMetricsWithRegisterer m₁ regId₁ w₁).trace =
        Event.lock :: body ++ [Event.unlock] ∧
      ∀ e ∈ body, (∃ c, e = Event.registerCall c) ∨ ∃ c, e = Event.unregisterCall c) ∧
    (s = (RegisterDefaultServerMetricsWithRegisterer m₁ regId₁ w₁).trace.map
          (fun e => (Tag.left, e)) ++
        (RegisterDefaultServerMetricsWithRegisterer m₂ regId₂ w₂).trace.map
          (fun e => (Tag.right, e)) ∨
     s = (RegisterDefaultServerMetricsWithRegisterer m₂ regId₂ w₂).trace.map
          (fun e => (Tag.right, e)) ++
        (RegisterDefaultServerMetricsWithRegisterer m₁ regId₁ w₁).trace.map
          (fun e => (Tag.left, e))) := by
  obtain ⟨b1, e1, hb1⟩ := call_trace_shape m₁ regId₁ w₁
  obtain ⟨b2, e2, hb2⟩ := call_trace_shape m₂ regId₂ w₂
  have hne1 : ∀ e ∈ b1, e ≠ Event.lock ∧ e ≠ Event.unlock := fun e he => by
    rcases hb1 e he with ⟨c, hc⟩ | ⟨c, hc⟩ <;> subst hc <;> exact ⟨by simp, by simp⟩
  have hne2 : ∀ e ∈ b2, e ≠ Event.lock ∧ e ≠ Event.unlock := fun e he => by
    rcases hb2 e he with ⟨c, hc⟩ | ⟨c, hc⟩ <;> subst hc <;> exact ⟨by simp, by simp⟩
  refine ⟨⟨b1, e1, hb1⟩, ?_⟩
  rw [e1, e2] at hs ⊢
  exact sched_serial hne1 hne2 hs

/-- C6 witness: a concrete mutex-legal interleaving of two calls on a
recorded registerer runs one call fully before the other. -/
theorem registerInto_mutual_exclusion_witness :
    (∃ body, (RegisterDefaultServerMetricsWithRegisterer mNoHist 5 wRecorded).trace =
        Event.lock :: body ++ [Event.unlock] ∧
      ∀ e ∈ body, (∃ c, e = Event.registerCall c) ∨ ∃ c, e = Event.unregisterCall c) ∧
    (schedSerialW = (RegisterDefaultServerMetricsWithRegisterer mNoHist 5 wRecorded).trace.map
          (fun e => (Tag.left, e)) ++
        (RegisterDefaultServerMetricsWithRegisterer mNoHist 5 wRecorded).trace.map
          (fun e => (Tag.right, e)) ∨
     schedSerialW = (RegisterDefaultServerMetricsWithRegisterer mNoHist 5 wRecorded).trace.map
          (fun e => (Tag.right, e)) ++
        (RegisterDefaultServerMetricsWithRegisterer mNoHist 5 wRecorded).trace.map
          (fun e => (Tag.left, e))) :=
  registerInto_mutual_exclusion mNoHist mNoHist 5 5 wRecorded wRecorded schedSerialW
    (by
      show Sched none [Event.lock, Event.unlock] [Event.lock, Event.unlock]
        [(Tag.left, Event.lock), (Tag.left, Event.unlock),
         (Tag.right, Event.lock), (Tag.right, Event.unlock)]
      exact Sched.stepL none Event.lock [Event.unlock] [Event.lock, Event.unlock] _
        (Or.inl rfl)
        (Sched.stepL _ Event.unlock [] [Event.lock, Event.unlock] _ (Or.inr rfl)
          (Sched.stepR _ Event.lock [Event.unlock] [] _ (Or.inl rfl)
            (Sched.stepR _ Event.unlock [] [] _ (Or.inr rfl) Sched.done))))

/-! ### Counter initialization facts -/

theorem seriesValue_of_exists_allZero (s : List (CallLabels × Nat)) (l : CallLabels)
    (hz : ∀ p ∈ s, p.2 = 0) (he : seriesExists s l = true) :
    seriesValue s l = some 0 := by
  induction s with
  | nil => exact Bool.noConfusion he
  | cons p rest ih =>
    by_cases hp : p.1 = l
    · simp [seriesValue, hp, hz p (List.mem_cons_self p rest)]
    · simp only [seriesExists, hp, if_false] at he
      simp only [seriesValue, hp, if_false]
      exact ih (fun q hq => hz q (List.mem_cons_of_mem _ hq)) he

theorem seriesValue_append_zero (s : List (CallLabels × Nat)) (l : CallLabels)
    (he : seriesExists s l = false) :
    seriesValue (s ++ [(l, 0)]) l = some 0 := by
  induction s with
  | nil => simp [seriesValue]
  | cons p rest ih =>
    by_cases hp : p.1 = l
    · simp [seriesExists, hp] at he
    · simp only [seriesExists, hp, if_false] at he
      simp only [List.cons_append, seriesValue, hp, if_false]
      exact ih he

theorem seriesValue_append_left (s t : List (CallLabels × Nat)) (l : CallLabels)
    (v : Nat) (h : seriesValue s l = some v) :
    seriesValue (s ++ t) l = some v := by
  induction s with
  | nil => exact Option.noConfusion h
  | cons p rest ih =>
    by_cases hp : p.1 = l
    · simp only [seriesValue, hp, if_true] at h
      simp only [List.cons_append, seriesValue, hp, if_true]
      exact h
    · simp only [seriesValue, hp, if_false] at h
      simp only [List.cons_append, seriesValue, hp, if_false]
      exact ih h

theorem touchZero_value_self (cv : CounterVec) (l : CallLabels)
    (hz : AllZeroCV cv) : (cv.touchZero l).value l = some 0 := by
  unfold CounterVec.touchZero
  by_cases he : seriesExists cv.series l = true
  · simp only [he, if_true]
    exact seriesValue_of_exists_allZero _ _ hz he
  · simp only [Bool.not_eq_true] at he
    simp only [he, Bool.false_eq_true, if_false]
    exact seriesValue_append_zero _ _ he

theorem touchZero_value_mono (cv : CounterVec) (l l' : CallLabels) (v : Nat)
    (h : cv.value l = some v) : (cv.touchZero l').value l = some v := by
  unfold CounterVec.touchZero
  by_cases he : seriesExists cv.series l' = true
  · simp only [he, if_true]
    exact h
  · simp only [Bool.not_eq_true] at he
    simp only [he, Bool.false_eq_true, if_false]
    exact seriesValue_append_left _ _ _ _ h

theorem touchZero_allZero (cv : CounterVec) (l : CallLabels)
    (hz : AllZeroCV cv) : AllZeroCV (cv.touchZero l) := by
  unfold CounterVec.touchZero
  by_cases he : seriesExists cv.series l = true
  · simp only [he, if_true]
    exact hz
  · simp only [Bool.not_eq_true] at he
    simp only [he, Bool.false_eq_true, if_false]
    intro p hp
    rcases List.mem_append.1 hp with hp | hp
    · exact hz p hp
    · simp only [List.mem_singleton] at hp
      rw [hp]

theorem touchBoth_allZero (st : MetricsState) (l : CallLabels)
    (hz : AllZeroMS st) : AllZeroMS (touchBoth st l) :=
  ⟨touchZero_allZero _ _ hz.1, touchZero_allZero _ _ hz.2⟩

theorem fold_touchBoth_allZero (ls : List CallLabels) (st : MetricsState)
    (hz : AllZeroMS st) : AllZeroMS (ls.foldl touchBoth st) := by
  induction ls generalizing st with
  | nil => exact hz
  | cons x ls ih => exact ih _ (touchBoth_allZero st x hz)

theorem fold_touchBoth_started_mono (ls : List CallLabels) (st : MetricsState)
    (l : CallLabels) (v : Nat) (h : st.started.value l = some v) :
    (ls.foldl touchBoth st).started.value l = some v := by
  induction ls generalizing st with
  | nil => exact h
  | cons x ls ih => exact ih _ (touchZero_value_mono _ _ _ _ h)

theorem fold_touchBoth_handled_mono (ls : List CallLabels) (st : MetricsState)
    (l : CallLabels) (v : Nat) (h : st.handled.value l = some v) :
    (ls.foldl touchBoth st).handled.value l = some v := by
  induction ls generalizing st with
  | nil => exact h
  | cons x ls ih => exact ih _ (touchZero_value_mono _ _ _ _ h)

theorem fold_touchBoth_value (ls : List CallLabels) (st : MetricsState)
    (l : CallLabels) (hz : AllZeroMS st) (hmem : l ∈ ls) :
    (ls.foldl touchBoth st).started.value l = some 0 ∧
    (ls.foldl touchBoth st).handled.value l = some 0 := by
  induction ls generalizing st with
  | nil => cases hmem
  | cons x ls ih =>
    by_cases hx : l = x
    · subst hx
      rw [List.foldl_cons]
      exact ⟨fold_touchBoth_started_mono ls (touchBoth st l) l 0
          (touchZero_value_self st.started l hz.1),
        fold_touchBoth_handled_mono ls (touchBoth st l) l 0
          (touchZero_value_self st.handled l hz.2)⟩
    · have hmem' : l ∈ ls := by
        rcases List.mem_cons.1 hmem with hc | hc
        · exact absurd hc hx
        · exact hc
      exact ih (touchBoth st x) (touchBoth_allZero st x hz) hmem'

theorem InitializeMetrics_eq_fold (server : List ServiceInfo) (st : MetricsState) :
    InitializeMetrics server st = (labelsOf server).foldl touchBoth st := by
  induction server generalizing st with
  | nil => rfl
  | cons svc rest ih =>
    have hstep : InitializeMetrics (svc :: rest) st = InitializeMetrics rest
        (svc.methods.foldl
          (fun acc2 mi => touchBoth acc2 ⟨mi.callType, svc.service, mi.name⟩) st) := rfl
    rw [hstep, ih, labelsOf, List.foldl_append, List.foldl_map]

theorem mem_labelsOf (server : List ServiceInfo) (svc : ServiceInfo) (mi : MethodInfo)
    (hs : svc ∈ server) (hm : mi ∈ svc.methods) :
    (⟨mi.callType, svc.service, mi.name⟩ : CallLabels) ∈ labelsOf server := by
  induction server with
  | nil => cases hs
  | cons sv rest ih =>
    rcases List.mem_cons.1 hs with hc | hc
    · subst hc
      exact List.mem_append_left _ (List.mem_map.2 ⟨mi, hm, rfl⟩)
    · exact List.mem_append_right _ (ih hc)

/-- C7: `Register` acts on the default metric set by calling
`InitializeMetrics`, and on counters holding no series yet it creates,
for every (service, method, call_type) triple discoverable from the
server's service table, a started-counter series and a handled-counter
series with value 0. -/
theorem Register_initializes (server : List ServiceInfo) (st : MetricsState)
    (hs : st.started.series = []) (hh : st.handled.series = []) :
    Register server st = InitializeMetrics server st ∧
    ∀ svc ∈ server, ∀ mi ∈ svc.methods,
      (Register server st).started.value ⟨mi.callType, svc.service, mi.name⟩ = some 0 ∧
      (Register server st).handled.value ⟨mi.callType, svc.service, mi.name⟩ = some 0 := by
  have hz : AllZeroMS st :=
    ⟨fun p hp => absurd (hs ▸ hp) (List.not_mem_nil p),
     fun p hp => absurd (hh ▸ hp) (List.not_mem_nil p)⟩
  refine ⟨rfl, fun svc hsvc mi hmi => ?_⟩
  show (InitializeMetrics server st).started.value _ = some 0 ∧
    (InitializeMetrics server st).handled.value _ = some 0
  rw [InitializeMetrics_eq_fold]
  exact fold_touchBoth_value _ _ _ hz (mem_labelsOf _ _ _ hsvc hmi)

/-- C7 witness: on the spec's scenario (unary `UnaryA`, server-streaming
`StreamB`) both counters hold value-0 series for both discoverable label
tuples after `Register`. -/
theorem Register_initializes_witness :
    stEmpty.started.series = [] ∧ stEmpty.handled.series = [] ∧
    (Register serverW stEmpty = InitializeMetrics serverW stEmpty ∧
    ∀ svc ∈ serverW, ∀ mi ∈ svc.methods,
      (Register serverW stEmpty).started.value ⟨mi.callType, svc.service, mi.name⟩ =
        some 0 ∧
      (Register serverW stEmpty).handled.value ⟨mi.callType, svc.service, mi.name⟩ =
        some 0) ∧
    (Register serverW stEmpty).started.value ⟨CallType.unary, "svc", "UnaryA"⟩ = some 0 ∧
    (Register serverW stEmpty).handled.value ⟨CallType.unary, "svc", "UnaryA"⟩ = some 0 ∧
    (Register serverW stEmpty).started.value ⟨CallType.serverStream, "svc", "StreamB"⟩ =
      some 0 ∧
    (Register serverW stEmpty).handled.value ⟨CallType.serverStream, "svc", "StreamB"⟩ =
      some 0 :=
  ⟨rfl, rfl, Register_initializes serverW stEmpty rfl rfl,
    by decide, by decide, by decide, by decide⟩

end GrpcPrometheus
